import Mathlib

/-!
Verification development for the recursive tree copy-and-sort utility
(`task_01_tree_copy_sort.py`).

Shallow embedding conventions:
* A resolved absolute filesystem path is modelled as its list of components
  (`List String`); the path `/s/a/f.txt` is `["s", "a", "f.txt"]`.
* The source directory tree is modelled by the inductive type `Node`
  (regular files, directories, entries whose `stat` raises, and symbolic
  links carrying their resolved target).
* Errors that the Python code catches are modelled as data on the tree
  (`CopyOutcome` for the per-file copy result, the `listErr`/`statErr`
  constructors for traversal errors), so every Python `try/except` branch
  becomes a total case distinction.
* Console output is modelled as an ordered list of `Event`s; the in-place
  progress bar becomes one `Event.progress` per loop iteration, and the
  blank-line separator prints are elided.
* The destination filesystem is modelled as a map from paths to contents:
  a successful `shutil.copy2` is a write of one target path, a later write
  to the same path overwrites (last writer wins), so the set of files
  present under DST after the run is the set of distinct written targets.
-/

/-- Rendering of a resolved absolute path, as Python prints a `PosixPath`
inside an f-string: components joined by `/` after a root slash. -/
def pathStr (p : List String) : String :=
  "/" ++ String.intercalate ("/") p

/-- Python `Path.name`: the final component of a path (empty for the root). -/
def nameOf (p : List String) : String :=
  p.getLastD ("")

/-- Containment: `p` equals `d` or lies inside the subtree rooted at `d`
(containment of resolved absolute paths, component-wise). -/
def underPath (d p : List String) : Prop :=
  ∃ r, p = d ++ r

theorem underPath_iff_isPrefixOf (d p : List String) :
    underPath d p ↔ d.isPrefixOf p = true := by
  rw [List.isPrefixOf_iff_prefix]
  constructor
  · rintro ⟨r, rfl⟩
    exact ⟨r, rfl⟩
  · rintro ⟨r, h⟩
    exact ⟨r, h.symm⟩

instance instDecidableUnderPath (d p : List String) : Decidable (underPath d p) :=
  decidable_of_iff _ (underPath_iff_isPrefixOf d p).symm

theorem underPath_refl (d : List String) : underPath d d :=
  ⟨[], by simp⟩

theorem underPath_antisymm {d p : List String}
    (h1 : underPath d p) (h2 : underPath p d) : d = p := by
  rw [underPath_iff_isPrefixOf, List.isPrefixOf_iff_prefix] at h1 h2
  exact h1.eq_of_length (Nat.le_antisymm h1.length_le h2.length_le)

/-- Splitting containment at the last path component: a path is under `d`
iff it is `d`-extended-by-nothing-new, i.e. either equal to the extended
path or `d` already contains the parent. -/
theorem underPath_snoc {d p : List String} {n : String}
    (h : underPath d (p ++ [n])) : d = p ++ [n] ∨ underPath d p := by
  rw [underPath_iff_isPrefixOf, List.isPrefixOf_iff_prefix] at h
  rcases List.prefix_concat_iff.mp h with h' | h'
  · exact Or.inl h'
  · right
    rw [underPath_iff_isPrefixOf, List.isPrefixOf_iff_prefix]
    exact h'

/-! ## PathClassifier (`get_extension_subdir`, source lines 58-61)

`path.suffix` in Python's `pathlib` is computed on the final path
component `name` as: let `i = name.rfind('.')`; if `0 < i < len(name)-1`
return `name[i:]` else return `''`.  We embed that computation on the
character list of the name. -/

/-- Index of the last `'.'` in a character list (Python `str.rfind('.')`,
returning `none` instead of `-1` when absent). -/
def rfindDot : List Char → Option Nat
  | [] => none
  | c :: cs =>
    match rfindDot cs with
    | some i => some (i + 1)
    | none => if c = '.' then some 0 else none

/-- Python `PurePath.suffix` on a file name given as a character list. -/
def py_suffix (name : List Char) : List Char :=
  match rfindDot name with
  | some i => if 0 < i ∧ i + 1 < name.length then name.drop i else []
  | none => []

/-- Python `str.lower()` (ASCII case folding, as `Char.toLower`). -/
def lowerStr (s : List Char) : List Char :=
  s.map Char.toLower

/-- Python `str.lstrip(".")`: remove all leading dots. -/
def lstripDots (s : List Char) : List Char :=
  s.dropWhile (· = '.')

/-- Function `get_extension_subdir` (source lines 58-61): lowercase the suffix of
the file name, strip the leading dots, and fall back to the sentinel
`"no_extension"` when the suffix is empty. -/
def get_extension_subdir (name : String) : String :=
  let e := lowerStr (py_suffix name.toList)
  if e = [] then ("no_extension") else ⟨lstripDots e⟩

/-- Modelled from the spec: the bucket is "the file's lowercased extension
with the leading dot stripped, or the sentinel `no_extension` when the
path has no suffix" — stated independently of the code's `lstrip` by
dropping exactly the one leading dot of the suffix. -/
def specBucket (name : String) : String :=
  let s := py_suffix name.toList
  if s = [] then ("no_extension") else ⟨lowerStr (s.drop 1)⟩

/-! ## ContainmentGuard (`is_inside`, source lines 64-70)

`child.relative_to(parent)` on resolved absolute paths succeeds exactly
when `parent`'s components are a prefix of `child`'s, and raises
`ValueError` otherwise; the embedded `relative_to` returns `none` for the
raising case.  `is_inside` returns `True` on success and catches the
`ValueError` into `False`. -/

/-- Python `PurePath.relative_to` on resolved absolute component lists:
`none` models the raised `ValueError`. -/
def relative_to (child parent : List String) : Option (List String) :=
  if parent.isPrefixOf child then some (child.drop parent.length) else none

/-- Function `is_inside` (source lines 64-70). -/
def is_inside (child parent : List String) : Bool :=
  (relative_to child parent).isSome

/-! ## The source tree model

`Node` models one filesystem object as the walker can observe it:
* `file outcome` — a regular file; `outcome` records what the later
  `shutil.copy2`/`mkdir` attempt on it will do (succeed, or raise
  `PermissionError` / `FileNotFoundError` / another `OSError`);
* `statErr perm` — an entry whose `is_dir()`/`is_file()` call raises
  (`PermissionError` when `perm`, another `OSError` otherwise);
* `dir listErr children` — a directory; `listErr = some perm` means its
  `iterdir()` raises, `none` means it lists `children`;
* `symlinkTo target node` — a symbolic link whose fully resolved path is
  `target` and whose target object is `node`. -/

inductive CopyOutcome where
  | ok
  | permErr
  | notFoundErr
  | osErr
deriving DecidableEq

mutual
inductive Node where
  | file (outcome : CopyOutcome)
  | statErr (perm : Bool)
  | dir (listErr : Option Bool) (children : Entries)
  | symlinkTo (target : List String) (node : Node)
inductive Entries where
  | nil
  | cons (name : String) (node : Node) (rest : Entries)
end

/-- Python `item.resolve()`: the lexical path itself, except for symbolic links,
which resolve to their (fully resolved) target. -/
def resolvedOf (path : List String) : Node → List String
  | .symlinkTo t m => resolvedOf t m
  | _ => path

/-- What `item.is_dir()` / `item.is_file()` report (following symlinks),
including the raising cases. -/
inductive EntryKind where
  | dirKind
  | fileKind
  | raisePerm
  | raiseOS
deriving DecidableEq

def kindOf : Node → EntryKind
  | .file _ => .fileKind
  | .dir _ _ => .dirKind
  | .statErr true => .raisePerm
  | .statErr false => .raiseOS
  | .symlinkTo _ m => kindOf m

def outcomeOf : Node → CopyOutcome
  | .file o => o
  | .symlinkTo _ m => outcomeOf m
  | _ => .ok

mutual
def noSymlinks : Node → Bool
  | .symlinkTo _ _ => false
  | .dir _ children => noSymlinksE children
  | _ => true
def noSymlinksE : Entries → Bool
  | .nil => true
  | .cons _ n rest => noSymlinks n && noSymlinksE rest
end

/-! ## TreeWalker (`collect_files_recursive`, source lines 73-96) -/

/-- One collected file: the lexical path appended to `out`, plus (for the
invariants) its resolved path and the outcome its copy attempt will have. -/
structure FileEntry where
  path : List String
  resolved : List String
  outcome : CopyOutcome
deriving DecidableEq

/-- Everything one traversal produces: the collected files (in discovery
order, as appended to `out`), the warnings appended to `ERRORS` (in
discovery order), and — bookkeeping for the invariants — the (lexical,
resolved) paths of the directories the walker recursed into. -/
structure WalkOut where
  files : List FileEntry
  warns : List String
  visited : List (List String × List String)
deriving DecidableEq

def WalkOut.append (a b : WalkOut) : WalkOut :=
  ⟨a.files ++ b.files, a.warns ++ b.warns, a.visited ++ b.visited⟩

instance : Append WalkOut :=
  ⟨WalkOut.append⟩

def WalkOut.empty : WalkOut :=
  ⟨[], [], []⟩

mutual
/-- Function `collect_files_recursive` (source lines 73-96), called on a directory
at `path`: list the directory (warning and stopping on failure) and
process each entry in order. -/
def collect_files_recursive (path : List String) (skip_dir : Option (List String)) :
    Node → WalkOut
  | .symlinkTo _ m => collect_files_recursive path skip_dir m
  | .dir (some true) _ => ⟨[], ["Немає доступу: " ++ pathStr path], []⟩
  | .dir (some false) _ => ⟨[], ["Помилка читання: " ++ pathStr path], []⟩
  | .dir none children => collect_entries path skip_dir children
  | _ => WalkOut.empty
/-- The `for item in entries` loop body of `collect_files_recursive`
(source lines 84-96): skip the entry whose resolved path equals the
resolved skip directory; otherwise recurse into directories, collect
regular files, and warn when the type test raises. -/
def collect_entries (path : List String) (skip_dir : Option (List String)) :
    Entries → WalkOut
  | .nil => WalkOut.empty
  | .cons name c rest =>
    let cpath := path ++ [name]
    let here : WalkOut :=
      if skip_dir = some (resolvedOf cpath c) then WalkOut.empty
      else
        match kindOf c with
        | .dirKind =>
          let w := collect_files_recursive cpath skip_dir c
          ⟨w.files, w.warns, (cpath, resolvedOf cpath c) :: w.visited⟩
        | .fileKind => ⟨[⟨cpath, resolvedOf cpath c, outcomeOf c⟩], [], []⟩
        | .raisePerm => ⟨[], ["Немає доступу: " ++ pathStr cpath], []⟩
        | .raiseOS => ⟨[], ["Помилка читання: " ++ pathStr cpath], []⟩
    here ++ collect_entries path skip_dir rest
end

/-! ## CopyEngine (the copy loop of `main`, source lines 164-181) -/

/-- The result of one iteration of the copy loop: either the target file
was written (with the source file's content and metadata), or exactly one
warning was appended to `ERRORS`. -/
inductive CopyAttempt where
  | success (target : List String) (source : List String)
  | warned (msg : String)
deriving DecidableEq

/-- One iteration of the copy loop (source lines 164-178): compute the
extension bucket, the target directory and the target file, then attempt
`mkdir` + `copy2`, catching the three exception classes into one warning. -/
def copy_one (dst : List String) (f : FileEntry) : CopyAttempt :=
  let ext_dir := get_extension_subdir (nameOf f.path)
  let target_dir := dst ++ [ext_dir]
  let target_file := target_dir ++ [nameOf f.path]
  match f.outcome with
  | .ok => .success target_file f.path
  | .permErr => .warned ("Немає доступу: " ++ pathStr f.path)
  | .notFoundErr => .warned ("Файл не знайдено: " ++ pathStr f.path)
  | .osErr => .warned ("Помилка копіювання: " ++ pathStr f.path)

/-- The whole copy loop over the collected file list. -/
def copy_phase (dst : List String) (files : List FileEntry) : List CopyAttempt :=
  files.map (copy_one dst)

def successTargets (attempts : List CopyAttempt) : List (List String) :=
  attempts.filterMap fun a =>
    match a with
    | .success t _ => some t
    | .warned _ => none

def copyWarns (attempts : List CopyAttempt) : List String :=
  attempts.filterMap fun a =>
    match a with
    | .success _ _ => none
    | .warned m => some m

/-- Number of files present under DST after the run, for a DST that was
empty beforehand: the destination filesystem is a map from paths to
contents and each successful copy writes one target path (a second write
to the same path overwrites), so the count is the number of distinct
written targets. -/
def dstFileCount (targets : List (List String)) : Nat :=
  targets.dedup.length

/-! ## TreeRenderer (`display_tree`, source lines 99-125)

`display_tree` re-reads the filesystem at render time; in this run the
tree it renders is the destination tree the tool just produced, which
contains only plain directories and regular files.  `RTree` is that
render-time snapshot; a directory with `listable = false` models one
whose `sorted(path.iterdir(), ...)` call raises (the `except Exception`
branch). -/

inductive RTree where
  | file (name : String)
  | dir (name : String) (listable : Bool) (children : List RTree)

def RTree.name : RTree → String
  | .file n => n
  | .dir n _ _ => n

def RTree.is_file : RTree → Bool
  | .file _ => true
  | .dir _ _ _ => false

/-- The comparison Python's `sorted(..., key=lambda x: (x.is_file(), x.name))`
sorts by: lexicographic on the pair (is-file flag, name), with
`False < True` on the flag. -/
def sortKeyLE (a b : RTree) : Bool :=
  (!a.is_file && b.is_file) || ((a.is_file == b.is_file) && decide (a.name ≤ b.name))

def sortKey (a b : RTree) : Prop :=
  sortKeyLE a b = true

instance instDecidableSortKey : DecidableRel sortKey := fun a b => by
  unfold sortKey
  infer_instance

/-- Python `sorted(path.iterdir(), key=lambda x: (x.is_file(), x.name))`:
Python's `sorted` is a stable sort, and so is insertion sort, so for this
total preorder key they produce the same list. -/
def sortedChildren (cs : List RTree) : List RTree :=
  List.insertionSort sortKey cs

theorem sortedChildren_sizeOf (cs : List RTree) :
    sizeOf (sortedChildren cs) = sizeOf cs :=
  (List.perm_insertionSort sortKey cs).sizeOf_eq_sizeOf

/-- One printed console line of the tree rendering, split into the three
concatenated pieces the source builds it from: the accumulated
indentation, the connector prefix, and the entry text (colors elided). -/
structure Line where
  indent : String
  pre : String
  text : String
deriving DecidableEq

mutual
/-- Function `display_tree` (source lines 99-125) on the object `t` living at
`path`: returns the printed lines and the warnings appended to `ERRORS`
(which `main` never prints, since the flush has already happened). -/
def display_tree (path : List String) (t : RTree) (indent pre : String) :
    List Line × List String :=
  match t with
  | .file n => ([⟨indent, pre, n⟩], [])
  | .dir n listable cs =>
    let sub := indent ++ (if pre = "" then ("") else ("    "))
    if listable then
      let rest := display_children path sub (sortedChildren cs)
      (⟨indent, pre, n⟩ :: rest.1, rest.2)
    else
      ([⟨indent, pre, n⟩, ⟨sub, "└── ", "[недоступно]"⟩],
        ["Немає доступу: " ++ pathStr path])
  termination_by sizeOf t
  decreasing_by all_goals (simp_wf; try rw [sortedChildren_sizeOf]; try omega)
/-- The `for i, item in enumerate(entries)` loop of `display_tree`
(source lines 115-118): each child is rendered with the connector
`├── `, except the last, which gets `└── `. -/
def display_children (path : List String) (sub : String) :
    List RTree → List Line × List String
  | [] => ([], [])
  | [e] => display_tree (path ++ [e.name]) e sub ("└── ")
  | e :: rest =>
    let h := display_tree (path ++ [e.name]) e sub ("├── ")
    let t := display_children path sub rest
    (h.1 ++ t.1, h.2 ++ t.2)
  termination_by l => sizeOf l
  decreasing_by all_goals (simp_wf; try omega)
end

/-! ## The destination tree after the run

DST is assumed empty (or freshly created) before the run.  Each
successful copy writes `dst/<bucket>/<filename>`; the destination
filesystem the final render reads back is therefore: one bucket
directory per distinct bucket written, holding one regular file per
distinct filename written into that bucket. -/

def bucketNames (rels : List (String × String)) : List String :=
  (rels.map (·.1)).dedup

def bucketFiles (rels : List (String × String)) (b : String) : List String :=
  ((rels.filter fun r => r.1 == b).map (·.2)).dedup

/-- The destination tree read back at render time, from the list of
(bucket, filename) pairs that were successfully written. -/
def buildDst (dstName : String) (rels : List (String × String)) : RTree :=
  .dir dstName true
    ((bucketNames rels).map fun b => .dir b true ((bucketFiles rels b).map .file))

/-- The (bucket, filename) pairs of the successful copy attempts; a
success's target is `dst ++ [bucket, filename]`. -/
def relTargets (dst : List String) (attempts : List CopyAttempt) :
    List (String × String) :=
  (successTargets attempts).map fun t => (t.getD dst.length (""), t.getD (dst.length + 1) (""))

/-! ## main (source lines 128-193) -/

/-- One unit of console output, in print order.  `progress i total` is the
in-place progress bar update after the `i`-th copy attempt; blank-line
prints are elided. -/
inductive Event where
  | fatal (msg : String)
  | progress (i total : Nat)
  | warnLine (msg : String)
  | info (msg : String)
  | treeLine (ln : Line)
deriving DecidableEq

/-- The environment of one invocation: whether SRC exists and is a
directory, whether creating DST succeeds, the resolved SRC and DST paths,
and the source tree rooted at SRC. -/
structure RunInput where
  srcExists : Bool
  srcIsDir : Bool
  mkdirOk : Bool
  src : List String
  dst : List String
  tree : Node

/-- Everything observable about one run: the console output in order,
whether `dst.mkdir` was executed successfully, what the traversal did,
and the copy attempts in order. -/
structure RunResult where
  output : List Event
  dstCreated : Bool
  walk : WalkOut
  attempts : List CopyAttempt

/-- Line 138 of the source: `skip_dir = dst if dst == src or is_inside(dst, src) else None`
(source line 138). -/
def runSkip (inp : RunInput) : Option (List String) :=
  if inp.dst == inp.src || is_inside inp.dst inp.src then some inp.dst else none

/-- The traversal `main` performs (source lines 147-148), with the root
call recorded as the first visited directory (SRC is already resolved). -/
def runWalk (inp : RunInput) : WalkOut :=
  let w := collect_files_recursive inp.src (runSkip inp) inp.tree
  ⟨w.files, w.warns, (inp.src, inp.src) :: w.visited⟩

/-- The progress-bar prints of the copy loop: one update per file,
`i/total` after the `i`-th attempt. -/
def progressEvents (total : Nat) : List Event :=
  (List.range total).map fun i => .progress (i + 1) total

/-- The lines `display_tree(dst)` prints at the end of the run. -/
def renderDstLines (dst : List String) (attempts : List CopyAttempt) : List Line :=
  (display_tree dst (buildDst (nameOf dst) (relTargets dst attempts)) "" "").1

/-- Function `main` (source lines 128-193) as a function from the run environment
to the observable run: validate SRC (fatal exit), compute `skip_dir`,
create DST (fatal exit), collect the files, short-circuit to rendering
when no file was collected, otherwise copy with progress, flush the
warnings, and render the destination tree.  (Named `main_run` because
Lean reserves the name `main` for executable entry points.) -/
def main_run (inp : RunInput) : RunResult :=
  if !(inp.srcExists && inp.srcIsDir) then
    { output := [.fatal ("[FATAL] SRC '" ++ pathStr inp.src ++ "' не існує.")],
      dstCreated := false, walk := WalkOut.empty, attempts := [] }
  else if !inp.mkdirOk then
    { output := [.fatal ("[FATAL] Не вдалося створити '" ++ pathStr inp.dst ++ "'")],
      dstCreated := false, walk := WalkOut.empty, attempts := [] }
  else
    let w := runWalk inp
    let total := w.files.length
    if total = 0 then
      { output := (renderDstLines inp.dst []).map .treeLine,
        dstCreated := true, walk := w, attempts := [] }
    else
      let attempts := copy_phase inp.dst w.files
      { output := progressEvents total
          ++ ((w.warns ++ copyWarns attempts).map .warnLine)
          ++ [.info ("[INFO] Структура DST у вигляді дерева:")]
          ++ (renderDstLines inp.dst attempts).map .treeLine,
        dstCreated := true, walk := w, attempts := attempts }

/-! ## Concrete runs used in the claim analysis -/

/-- DST equal to SRC: `src = dst = /a`, containing one file `/a/f.txt`. -/
def inpC1 : RunInput :=
  { srcExists := true, srcIsDir := true, mkdirOk := true,
    src := ["a"], dst := ["a"],
    tree := .dir none (.cons ("f.txt") (.file .ok) .nil) }

/-- DST strictly inside SRC: `src = /s`, `dst = /s/out`; `out` still holds
a file from a previous run, and a fresh file lives at `/s/a/f.txt`. -/
def inpC1w : RunInput :=
  { srcExists := true, srcIsDir := true, mkdirOk := true,
    src := ["s"], dst := ["s", "out"],
    tree := .dir none
      (.cons ("a") (.dir none (.cons ("f.txt") (.file .ok) .nil))
        (.cons ("out") (.dir none (.cons ("old.txt") (.file .ok) .nil)) .nil)) }

/-- A source root whose `iterdir()` raises `PermissionError`: one
traversal warning, zero collected files. -/
def inpC3 : RunInput :=
  { srcExists := true, srcIsDir := true, mkdirOk := true,
    src := ["s"], dst := ["d"],
    tree := .dir (some true) .nil }

/-- A run with one traversal warning and one collected file. -/
def inpC3w : RunInput :=
  { srcExists := true, srcIsDir := true, mkdirOk := true,
    src := ["s"], dst := ["d"],
    tree := .dir none
      (.cons ("bad") (.dir (some true) .nil)
        (.cons ("f.txt") (.file .ok) .nil)) }

/-- Two same-named, same-extension files in different subdirectories of
SRC; DST is outside SRC. -/
def inpC5 : RunInput :=
  { srcExists := true, srcIsDir := true, mkdirOk := true,
    src := ["s"], dst := ["d"],
    tree := .dir none
      (.cons ("a") (.dir none (.cons ("f.txt") (.file .ok) .nil))
        (.cons ("b") (.dir none (.cons ("f.txt") (.file .ok) .nil)) .nil)) }

/-- SRC holding only one empty subdirectory: zero files collected. -/
def inpC7 : RunInput :=
  { srcExists := true, srcIsDir := true, mkdirOk := true,
    src := ["s"], dst := ["d"],
    tree := .dir none (.cons ("sub") (.dir none .nil) .nil) }

/-- SRC does not exist. -/
def inpC10 : RunInput :=
  { srcExists := false, srcIsDir := false, mkdirOk := true,
    src := ["missing"], dst := ["d"], tree := .dir none .nil }

/-- A directory containing a symbolic link at lexical path `/s/link` that
resolves to the skip directory `/s/d`, next to an ordinary file. -/
def demoC9 : Node :=
  .dir none
    (.cons ("link") (.symlinkTo ["s", "d"] (.dir none (.cons ("x.txt") (.file .ok) .nil)))
      (.cons ("keep") (.file .ok) .nil))

/-- A file whose copy succeeds. -/
def w2a : FileEntry :=
  ⟨["s", "a.txt"], ["s", "a.txt"], .ok⟩

/-- A file whose copy raises `PermissionError`. -/
def w2b : FileEntry :=
  ⟨["s", "b.txt"], ["s", "b.txt"], .permErr⟩

/-- Two renderable children for the renderer claims: one file, one
directory. -/
def rt8 : List RTree :=
  [.file ("b.txt"), .dir ("sub") true []]

/-! ## Helper lemmas -/

@[simp]
theorem WalkOut.append_files (a b : WalkOut) : (a ++ b).files = a.files ++ b.files :=
  rfl

@[simp]
theorem WalkOut.append_warns (a b : WalkOut) : (a ++ b).warns = a.warns ++ b.warns :=
  rfl

@[simp]
theorem WalkOut.append_visited (a b : WalkOut) : (a ++ b).visited = a.visited ++ b.visited :=
  rfl

theorem copy_phase_len (dst : List String) (files : List FileEntry) :
    (copy_phase dst files).length = files.length := by
  simp [copy_phase]

theorem copy_phase_append (dst : List String) (l r : List FileEntry) :
    copy_phase dst (l ++ r) = copy_phase dst l ++ copy_phase dst r := by
  simp [copy_phase]

theorem copy_counts (attempts : List CopyAttempt) :
    (successTargets attempts).length + (copyWarns attempts).length = attempts.length := by
  induction attempts with
  | nil => simp [successTargets, copyWarns]
  | cons a rest ih =>
    cases a <;> simp [successTargets, copyWarns, List.filterMap_cons] at * <;> omega

theorem copy_one_shape (dst : List String) (f : FileEntry) :
    copy_one dst f
        = .success (dst ++ [get_extension_subdir (nameOf f.path), nameOf f.path]) f.path
    ∨ ∃ m, copy_one dst f = .warned m := by
  cases h : f.outcome <;> simp [copy_one, h]

theorem copy_one_success_source (dst : List String) (f : FileEntry)
    {t s : List String} (h : copy_one dst f = .success t s) : s = f.path := by
  cases ho : f.outcome <;> simp [copy_one, ho] at h
  exact h.2.symm

theorem resolvedOf_noSymlink (path : List String) (n : Node)
    (h : noSymlinks n = true) : resolvedOf path n = path := by
  cases n with
  | file _ => rfl
  | statErr _ => rfl
  | dir _ _ => rfl
  | symlinkTo _ _ => simp [noSymlinks] at h

mutual
/-- Walker invariant behind claim C1: when the skip directory is not an
ancestor of (or equal to) the current directory and the tree has no
symbolic links, no collected file and no visited directory lies under the
skip directory. -/
theorem collect_no_under (path s : List String) (n : Node)
    (hns : noSymlinks n = true) (hp : ¬ underPath s path) :
    (∀ f ∈ (collect_files_recursive path (some s) n).files, ¬ underPath s f.path)
    ∧ (∀ v ∈ (collect_files_recursive path (some s) n).visited, ¬ underPath s v.1) := by
  match n with
  | .symlinkTo _ _ => simp [noSymlinks] at hns
  | .dir (some true) _ => simp [collect_files_recursive]
  | .dir (some false) _ => simp [collect_files_recursive]
  | .dir none children =>
    have hns' : noSymlinksE children = true := by simpa [noSymlinks] using hns
    rw [collect_files_recursive]
    exact collect_entries_no_under path s children hns' hp
  | .file _ => simp [collect_files_recursive, WalkOut.empty]
  | .statErr _ => simp [collect_files_recursive, WalkOut.empty]
theorem collect_entries_no_under (path s : List String) (es : Entries)
    (hns : noSymlinksE es = true) (hp : ¬ underPath s path) :
    (∀ f ∈ (collect_entries path (some s) es).files, ¬ underPath s f.path)
    ∧ (∀ v ∈ (collect_entries path (some s) es).visited, ¬ underPath s v.1) := by
  match es with
  | .nil => simp [collect_entries, WalkOut.empty]
  | .cons name c rest =>
    have hc : noSymlinks c = true := by
      have h0 := hns
      simp [noSymlinksE, Bool.and_eq_true] at h0
      exact h0.1
    have hrest : noSymlinksE rest = true := by
      have h0 := hns
      simp [noSymlinksE, Bool.and_eq_true] at h0
      exact h0.2
    have ihrest := collect_entries_no_under path s rest hrest hp
    have hres : resolvedOf (path ++ [name]) c = path ++ [name] :=
      resolvedOf_noSymlink _ _ hc
    rw [collect_entries]
    by_cases hskip : (some s : Option (List String)) = some (resolvedOf (path ++ [name]) c)
    · rw [if_pos hskip]
      refine ⟨?_, ?_⟩
      · intro f hf
        simp [WalkOut.empty] at hf
        exact ihrest.1 f hf
      · intro v hv
        simp [WalkOut.empty] at hv
        exact ihrest.2 v hv
    · rw [if_neg hskip]
      have hne : s ≠ path ++ [name] := by
        intro he
        exact hskip (by rw [hres, ← he])
      have hp' : ¬ underPath s (path ++ [name]) := by
        intro hu
        rcases underPath_snoc hu with h' | h'
        · exact hne h'
        · exact hp h'
      match c with
      | .file o =>
        refine ⟨?_, ?_⟩
        · intro f hf
          simp [kindOf] at hf
          rcases hf with h' | h'
          · rw [h']
            exact hp'
          · exact ihrest.1 f h'
        · intro v hv
          simp [kindOf] at hv
          exact ihrest.2 v hv
      | .statErr b =>
        refine ⟨?_, ?_⟩
        · intro f hf
          cases b <;> simp [kindOf] at hf <;> exact ihrest.1 f hf
        · intro v hv
          cases b <;> simp [kindOf] at hv <;> exact ihrest.2 v hv
      | .dir le cs =>
        have ihc := collect_no_under (path ++ [name]) s (.dir le cs) hc hp'
        refine ⟨?_, ?_⟩
        · intro f hf
          simp [kindOf] at hf
          rcases hf with h' | h'
          · exact ihc.1 f h'
          · exact ihrest.1 f h'
        · intro v hv
          simp [kindOf] at hv
          rcases hv with h' | h' | h'
          · rw [h']
            exact hp'
          · exact ihc.2 v h'
          · exact ihrest.2 v h'
end

mutual
/-- Walker invariant behind claim C9: every directory the walker recurses
into, and every file it collects, has a resolved path different from the
skip directory — regardless of symbolic links and of lexical paths. -/
theorem collect_skip_resolved (path s : List String) (n : Node) :
    (∀ v ∈ (collect_files_recursive path (some s) n).visited, v.2 ≠ s)
    ∧ (∀ f ∈ (collect_files_recursive path (some s) n).files, f.resolved ≠ s) := by
  match n with
  | .symlinkTo _ m =>
    rw [collect_files_recursive]
    exact collect_skip_resolved path s m
  | .dir (some true) _ => simp [collect_files_recursive]
  | .dir (some false) _ => simp [collect_files_recursive]
  | .dir none children =>
    rw [collect_files_recursive]
    exact collect_entries_skip_resolved path s children
  | .file _ => simp [collect_files_recursive, WalkOut.empty]
  | .statErr _ => simp [collect_files_recursive, WalkOut.empty]
theorem collect_entries_skip_resolved (path s : List String) (es : Entries) :
    (∀ v ∈ (collect_entries path (some s) es).visited, v.2 ≠ s)
    ∧ (∀ f ∈ (collect_entries path (some s) es).files, f.resolved ≠ s) := by
  match es with
  | .nil => simp [collect_entries, WalkOut.empty]
  | .cons name c rest =>
    have ihrest := collect_entries_skip_resolved path s rest
    rw [collect_entries]
    by_cases hskip : (some s : Option (List String)) = some (resolvedOf (path ++ [name]) c)
    · rw [if_pos hskip]
      refine ⟨?_, ?_⟩
      · intro v hv
        simp [WalkOut.empty] at hv
        exact ihrest.1 v hv
      · intro f hf
        simp [WalkOut.empty] at hf
        exact ihrest.2 f hf
    · rw [if_neg hskip]
      have hne : resolvedOf (path ++ [name]) c ≠ s := by
        intro he
        exact hskip (by rw [he])
      cases hk : kindOf c with
      | dirKind =>
        have ihc := collect_skip_resolved (path ++ [name]) s c
        refine ⟨?_, ?_⟩
        · intro v hv
          simp [hk] at hv
          rcases hv with h' | h' | h'
          · rw [h']
            exact hne
          · exact ihc.1 v h'
          · exact ihrest.1 v h'
        · intro f hf
          simp [hk] at hf
          rcases hf with h' | h'
          · exact ihc.2 f h'
          · exact ihrest.2 f h'
      | fileKind =>
        refine ⟨?_, ?_⟩
        · intro v hv
          simp [hk] at hv
          exact ihrest.1 v hv
        · intro f hf
          simp [hk] at hf
          rcases hf with h' | h'
          · rw [h']
            exact hne
          · exact ihrest.2 f h'
      | raisePerm =>
        refine ⟨?_, ?_⟩
        · intro v hv
          simp [hk] at hv
          exact ihrest.1 v hv
        · intro f hf
          simp [hk] at hf
          exact ihrest.2 f hf
      | raiseOS =>
        refine ⟨?_, ?_⟩
        · intro v hv
          simp [hk] at hv
          exact ihrest.1 v hv
        · intro f hf
          simp [hk] at hf
          exact ihrest.2 f hf
end

theorem main_run_fatal_src (inp : RunInput)
    (h : ¬(inp.srcExists = true ∧ inp.srcIsDir = true)) :
    main_run inp
      = { output := [.fatal ("[FATAL] SRC '" ++ pathStr inp.src ++ "' не існує.")],
          dstCreated := false, walk := WalkOut.empty, attempts := [] } := by
  have hb : (!(inp.srcExists && inp.srcIsDir)) = true := by
    cases h1 : inp.srcExists <;> cases h2 : inp.srcIsDir <;> simp_all
  rw [main_run, if_pos hb]

theorem main_run_zero (inp : RunInput)
    (h1 : inp.srcExists = true) (h2 : inp.srcIsDir = true) (h3 : inp.mkdirOk = true)
    (hz : (runWalk inp).files = []) :
    main_run inp
      = { output := (renderDstLines inp.dst []).map .treeLine,
          dstCreated := true, walk := runWalk inp, attempts := [] } := by
  rw [main_run, if_neg (by simp [h1, h2]), if_neg (by simp [h3])]
  simp [hz]

theorem main_run_pos (inp : RunInput)
    (h1 : inp.srcExists = true) (h2 : inp.srcIsDir = true) (h3 : inp.mkdirOk = true)
    (hnz : (runWalk inp).files ≠ []) :
    main_run inp
      = { output := progressEvents (runWalk inp).files.length
            ++ (((runWalk inp).warns
                  ++ copyWarns (copy_phase inp.dst (runWalk inp).files)).map .warnLine)
            ++ [.info ("[INFO] Структура DST у вигляді дерева:")]
            ++ (renderDstLines inp.dst (copy_phase inp.dst (runWalk inp).files)).map
                .treeLine,
          dstCreated := true, walk := runWalk inp,
          attempts := copy_phase inp.dst (runWalk inp).files } := by
  rw [main_run, if_neg (by simp [h1, h2]), if_neg (by simp [h3])]
  simp [List.length_eq_zero, hnz]

theorem toLower_eq_dot {c : Char} (h : c.toLower = '.') : c = '.' := by
  simp only [Char.toLower] at h
  by_cases hc : c.toNat ≥ 65 ∧ c.toNat ≤ 90
  · rw [if_pos hc] at h
    have hvalid : (c.toNat + 32).isValidChar := by
      left
      omega
    have hv : (Char.ofNat (c.toNat + 32)).toNat = c.toNat + 32 := by
      simp only [Char.ofNat]
      rw [dif_pos hvalid]
      simp [Char.ofNatAux, Char.toNat, UInt32.toNat, BitVec.toNat_ofNatLt]
    rw [h] at hv
    have hdot : ('.' : Char).toNat = 46 := by decide
    omega
  · rw [if_neg hc] at h
    exact h

theorem rfindDot_none_no_dot {cs : List Char} (h : rfindDot cs = none) : '.' ∉ cs := by
  induction cs with
  | nil => simp
  | cons c rest ih =>
    rw [rfindDot] at h
    cases hr : rfindDot rest with
    | some i =>
      rw [hr] at h
      simp at h
    | none =>
      rw [hr] at h
      by_cases hc : c = '.'
      · rw [if_pos hc] at h
        simp at h
      · simp only [List.mem_cons, not_or]
        exact ⟨fun he => hc he.symm, ih hr⟩

theorem rfindDot_spec {cs : List Char} {i : Nat} (h : rfindDot cs = some i) :
    ∃ pre post, cs = pre ++ '.' :: post ∧ pre.length = i ∧ '.' ∉ post := by
  induction cs generalizing i with
  | nil => simp [rfindDot] at h
  | cons c rest ih =>
    rw [rfindDot] at h
    cases hr : rfindDot rest with
    | some j =>
      rw [hr] at h
      have hi : i = j + 1 := (Option.some.inj h).symm
      obtain ⟨pre, post, hcs, hlen, hpost⟩ := ih hr
      exact ⟨c :: pre, post, by simp [hcs], by simp [hlen, hi], hpost⟩
    | none =>
      rw [hr] at h
      by_cases hc : c = '.'
      · rw [if_pos hc] at h
        have hi : i = 0 := (Option.some.inj h).symm
        exact ⟨[], rest, by simp [hc], by simp [hi], rfindDot_none_no_dot hr⟩
      · rw [if_neg hc] at h
        simp at h

/-- The nonempty suffix always has the shape `'.' :: post` with `post`
free of dots. -/
theorem py_suffix_shape {name : List Char} {c : Char} {post : List Char}
    (h : py_suffix name = c :: post) : c = '.' ∧ '.' ∉ post := by
  rw [py_suffix] at h
  cases hr : rfindDot name with
  | none =>
    rw [hr] at h
    simp at h
  | some i =>
    rw [hr] at h
    have h' : (if 0 < i ∧ i + 1 < name.length then List.drop i name else []) = c :: post := h
    by_cases hcond : 0 < i ∧ i + 1 < name.length
    · rw [if_pos hcond] at h'
      obtain ⟨pre, post', hcs, hlen, hpost⟩ := rfindDot_spec hr
      rw [hcs, ← hlen, List.drop_left] at h'
      cases h'
      exact ⟨rfl, hpost⟩
    · rw [if_neg hcond] at h'
      simp at h' 

theorem lstripDots_lower_of_no_dot {post : List Char} (hpost : '.' ∉ post) :
    lstripDots (lowerStr post) = lowerStr post := by
  cases post with
  | nil => rfl
  | cons p rest =>
    have hp : p ≠ '.' := by
      intro he
      exact hpost (by simp [he])
    have hlp : p.toLower ≠ '.' := fun he => hp (toLower_eq_dot he)
    simp [lstripDots, lowerStr, List.dropWhile_cons, hlp]

theorem bucket_eq_spec (name : String) :
    get_extension_subdir name = specBucket name := by
  rw [get_extension_subdir, specBucket]
  cases hs : py_suffix name.toList with
  | nil => simp [lowerStr]
  | cons c post =>
    obtain ⟨hc, hpost⟩ := py_suffix_shape hs
    subst hc
    have hll : lowerStr ('.' :: post) = '.' :: lowerStr post := by
      simp [lowerStr]
    rw [hll]
    rw [if_neg (by simp), if_neg (by simp)]
    have hstrip : lstripDots ('.' :: lowerStr post) = lowerStr post := by
      rw [lstripDots, List.dropWhile_cons]
      rw [if_pos (by simp)]
      exact lstripDots_lower_of_no_dot hpost
    rw [hstrip]
    simp

instance instSortKeyTotal : IsTotal RTree sortKey :=
  ⟨by
    intro a b
    unfold sortKey sortKeyLE
    cases ha : a.is_file <;> cases hb : b.is_file <;>
      simp [decide_eq_true_iff] <;> exact le_total _ _⟩

instance instSortKeyTrans : IsTrans RTree sortKey :=
  ⟨by
    intro a b c hab hbc
    unfold sortKey sortKeyLE at *
    cases ha : a.is_file <;> cases hb : b.is_file <;> cases hc : c.is_file <;>
      simp_all [decide_eq_true_iff] <;> exact le_trans hab hbc⟩

/-- Reading the comparison function off into the claim's terms: directory
before file, names alphabetical within a kind. -/
theorem sortKey_semantic {a b : RTree} (h : sortKey a b) :
    (a.is_file = false ∧ b.is_file = true)
    ∨ (a.is_file = b.is_file ∧ a.name ≤ b.name) := by
  unfold sortKey sortKeyLE at h
  cases ha : a.is_file <;> cases hb : b.is_file <;> simp_all [decide_eq_true_iff]

theorem display_children_cons (path : List String) (sub : String)
    (e : RTree) {l : List RTree} (hl : l ≠ []) :
    display_children path sub (e :: l)
      = ((display_tree (path ++ [e.name]) e sub ("├── ")).1
            ++ (display_children path sub l).1,
         (display_tree (path ++ [e.name]) e sub ("├── ")).2
            ++ (display_children path sub l).2) := by
  match l with
  | [] => exact absurd rfl hl
  | x :: rest =>
    rw [display_children]
    simp

/-- Every child but the last is rendered with the connector `├── `; the
last child is rendered with `└── `. -/
theorem display_children_concat (path : List String) (sub : String)
    (l : List RTree) (e : RTree) :
    display_children path sub (l ++ [e])
      = ((l.flatMap fun x => (display_tree (path ++ [x.name]) x sub ("├── ")).1)
            ++ (display_tree (path ++ [e.name]) e sub ("└── ")).1,
         (l.flatMap fun x => (display_tree (path ++ [x.name]) x sub ("├── ")).2)
            ++ (display_tree (path ++ [e.name]) e sub ("└── ")).2) := by
  induction l with
  | nil =>
    rw [List.nil_append]
    rw [display_children]
    simp
  | cons x rest ih =>
    rw [List.cons_append, display_children_cons path sub x (by simp), ih]
    simp

/-! ## The claims -/

/-- C1 (amended): for every run in which the resolved destination lies
strictly inside the resolved source (and the tree holds no symbolic
links), no file whose path is under the destination is ever collected by
the walker or used as a copy source, and the walker never descends into
any directory under the destination subtree.  (The claim's original
"equals the resolved source path" case is refuted by
`c1_counterexample`.) -/
theorem c1_nested_destination_never_entered (inp : RunInput)
    (h1 : inp.srcExists = true) (h2 : inp.srcIsDir = true) (h3 : inp.mkdirOk = true)
    (hns : noSymlinks inp.tree = true)
    (hin : underPath inp.src inp.dst) (hne : inp.dst ≠ inp.src) :
    (∀ f ∈ (main_run inp).walk.files, ¬ underPath inp.dst f.path)
    ∧ (∀ v ∈ (main_run inp).walk.visited, ¬ underPath inp.dst v.1)
    ∧ (∀ a ∈ (main_run inp).attempts, ∀ t s,
        a = .success t s → ¬ underPath inp.dst s) := by
  have hpre : inp.src.isPrefixOf inp.dst = true := (underPath_iff_isPrefixOf _ _).mp hin
  have hsk : runSkip inp = some inp.dst := by
    simp [runSkip, is_inside, relative_to, hpre]
  have hroot : ¬ underPath inp.dst inp.src := fun hu => hne (underPath_antisymm hu hin)
  have hmain := collect_no_under inp.src inp.dst inp.tree hns hroot
  have hwalk : (main_run inp).walk = runWalk inp := by
    by_cases hz : (runWalk inp).files = []
    · rw [main_run_zero inp h1 h2 h3 hz]
    · rw [main_run_pos inp h1 h2 h3 hz]
  have hfiles : ∀ f ∈ (runWalk inp).files, ¬ underPath inp.dst f.path := by
    intro f hf
    simp only [runWalk, hsk] at hf
    exact hmain.1 f hf
  refine ⟨?_, ?_, ?_⟩
  · rw [hwalk]
    exact hfiles
  · rw [hwalk]
    intro v hv
    simp only [runWalk, hsk] at hv
    rcases List.mem_cons.mp hv with h' | h'
    · rw [h']
      exact hroot
    · exact hmain.2 v h'
  · by_cases hz : (runWalk inp).files = []
    · rw [main_run_zero inp h1 h2 h3 hz]
      intro a ha
      simp at ha
    · rw [main_run_pos inp h1 h2 h3 hz]
      intro a ha t s hs
      simp only [copy_phase] at ha
      obtain ⟨f, hf, rfl⟩ := List.mem_map.mp ha
      rw [copy_one_success_source inp.dst f hs]
      exact hfiles f hf

/-- Witness for C1: in the concrete run `inpC1w` (DST `/s/out` strictly
inside SRC `/s`), nothing collected, visited or copied is under DST. -/
theorem c1_witness :
    (∀ f ∈ (main_run inpC1w).walk.files, ¬ underPath inpC1w.dst f.path)
    ∧ (∀ v ∈ (main_run inpC1w).walk.visited, ¬ underPath inpC1w.dst v.1)
    ∧ (∀ a ∈ (main_run inpC1w).attempts, ∀ t s,
        a = .success t s → ¬ underPath inpC1w.dst s) :=
  c1_nested_destination_never_entered inpC1w (by decide) (by decide) (by decide)
    (by decide) (by decide) (by decide)

/-- Counterexample to C1 as stated: when the resolved destination EQUALS
the resolved source (`/a`), the file `/a/f.txt` lies under the
destination, yet it is collected by the walker and copied. -/
theorem c1_counterexample :
    inpC1.dst = inpC1.src
    ∧ (main_run inpC1).walk.files.map FileEntry.path = [["a", "f.txt"]]
    ∧ underPath inpC1.dst ["a", "f.txt"]
    ∧ (main_run inpC1).attempts
        = [.success ["a", "txt", "f.txt"] ["a", "f.txt"]] := by
  decide

/-- C2: the copy loop makes exactly one attempt per collected file; each
attempt is either a success writing `dst/<bucket>/<filename>` (with the
source file's content and metadata) or exactly one warning; successes and
warnings partition the attempts; and the loop is a homomorphism on the
file list, so a failure never aborts the remaining batch. -/
theorem c2_copy_attempts (dst : List String) (files : List FileEntry) :
    (copy_phase dst files).length = files.length
    ∧ (∀ a ∈ copy_phase dst files, ∃ f ∈ files,
        a = .success (dst ++ [get_extension_subdir (nameOf f.path), nameOf f.path]) f.path
        ∨ ∃ m, a = .warned m)
    ∧ (successTargets (copy_phase dst files)).length
        + (copyWarns (copy_phase dst files)).length = files.length
    ∧ (∀ l r : List FileEntry,
        copy_phase dst (l ++ r) = copy_phase dst l ++ copy_phase dst r) := by
  refine ⟨copy_phase_len dst files, ?_, ?_, copy_phase_append dst⟩
  · intro a ha
    simp only [copy_phase] at ha
    obtain ⟨f, hf, rfl⟩ := List.mem_map.mp ha
    exact ⟨f, hf, copy_one_shape dst f⟩
  · have h := copy_counts (copy_phase dst files)
    rw [copy_phase_len] at h
    exact h

/-- Witness for C2: in the two-file batch `[w2a, w2b]` the failed copy of
`/s/b.txt` shows up as exactly one warning attempt. -/
theorem c2_witness :
    ∃ f ∈ [w2a, w2b],
      CopyAttempt.warned ("Немає доступу: " ++ pathStr w2b.path)
        = .success (["d"] ++ [get_extension_subdir (nameOf f.path), nameOf f.path]) f.path
      ∨ ∃ m, CopyAttempt.warned ("Немає доступу: " ++ pathStr w2b.path) = .warned m :=
  (c2_copy_attempts ["d"] [w2a, w2b]).2.1 _ (by decide)

/-- C3 (amended): every recoverable traversal or copy error is converted
into a Warning entry (never raised); in every run that collects at least
one file, all warnings accumulated during traversal and copying are
printed together, in discovery order, after the copy phase and before the
destination tree is rendered.  (In a run that collects zero files the
tool renders immediately and the pending warnings are never printed — see
`c3_counterexample`; warnings recorded during rendering itself are
likewise never printed.) -/
theorem c3_warnings_flushed (inp : RunInput)
    (h1 : inp.srcExists = true) (h2 : inp.srcIsDir = true) (h3 : inp.mkdirOk = true)
    (hnz : (runWalk inp).files ≠ []) :
    (main_run inp).output
      = progressEvents (runWalk inp).files.length
        ++ (((runWalk inp).warns ++ copyWarns ((main_run inp).attempts)).map .warnLine)
        ++ [.info ("[INFO] Структура DST у вигляді дерева:")]
        ++ (renderDstLines inp.dst ((main_run inp).attempts)).map .treeLine
    ∧ (main_run inp).attempts = copy_phase inp.dst (runWalk inp).files := by
  rw [main_run_pos inp h1 h2 h3 hnz]
  exact ⟨rfl, rfl⟩

/-- Witness for C3: the run `inpC3w` (one traversal warning, one file)
prints its progress, then the warning line, then the info line, then the
tree. -/
theorem c3_witness :
    (main_run inpC3w).output
      = progressEvents (runWalk inpC3w).files.length
        ++ (((runWalk inpC3w).warns ++ copyWarns ((main_run inpC3w).attempts)).map .warnLine)
        ++ [.info ("[INFO] Структура DST у вигляді дерева:")]
        ++ (renderDstLines inpC3w.dst ((main_run inpC3w).attempts)).map .treeLine
    ∧ (main_run inpC3w).attempts = copy_phase inpC3w.dst (runWalk inpC3w).files :=
  c3_warnings_flushed inpC3w (by decide) (by decide) (by decide) (by decide)

/-- Counterexample to C3 as stated: in the run `inpC3` (not fatally
aborted — SRC exists and DST is created) the traversal logs one Warning,
yet the output contains no warning line at all: the `total == 0` path
returns right after rendering, skipping the flush, so the warning is
silently dropped. -/
theorem c3_counterexample :
    (main_run inpC3).walk.warns = ["Немає доступу: /s"]
    ∧ (main_run inpC3).dstCreated = true
    ∧ ∀ e ∈ (main_run inpC3).output, ∀ m, e ≠ Event.warnLine m := by
  have hz : (runWalk inpC3).files = [] := by decide
  refine ⟨by decide, ?_, ?_⟩
  · rw [main_run_zero inpC3 rfl rfl rfl hz]
  · intro e he m
    rw [main_run_zero inpC3 rfl rfl rfl hz] at he
    obtain ⟨ln, _, rfl⟩ := List.mem_map.mp he
    simp

/-- C4: the bucket of a file equals its lowercased extension with the
leading dot stripped, or the sentinel `no_extension` when its name has no
suffix, for every input (the embedded function is total, matching the
exception-free Python expression); in particular `report.TXT ↦ txt`,
`README ↦ no_extension`, `.gitignore ↦ no_extension`, and `a.JPG` and
`b.jpg` share the bucket `jpg`. -/
theorem c4_bucket_correct :
    (∀ name : String, get_extension_subdir name = specBucket name)
    ∧ get_extension_subdir ("report.TXT") = "txt"
    ∧ get_extension_subdir ("README") = "no_extension"
    ∧ get_extension_subdir (".gitignore") = "no_extension"
    ∧ get_extension_subdir ("a.JPG") = get_extension_subdir ("b.jpg")
    ∧ get_extension_subdir ("b.jpg") = "jpg" :=
  ⟨bucket_eq_spec, by decide, by decide, by decide, by decide, by decide⟩

/-- C5 (amended): when the successfully written target paths are pairwise
distinct, the number of files present under an initially-empty DST equals
the number of collected files minus the number of copy warnings.
(Without that distinctness, same-named same-extension source files
overwrite one another in their bucket — see `c5_counterexample`.) -/
theorem c5_dst_file_count (dst : List String) (files : List FileEntry)
    (hnd : (successTargets (copy_phase dst files)).Nodup) :
    dstFileCount (successTargets (copy_phase dst files))
      = files.length - (copyWarns (copy_phase dst files)).length := by
  rw [dstFileCount, List.dedup_eq_self.mpr hnd]
  have h := copy_counts (copy_phase dst files)
  rw [copy_phase_len] at h
  omega

/-- Witness for C5: batch `[w2a, w2b]` — one success, one warning, one
file under DST. -/
theorem c5_witness :
    (successTargets (copy_phase ["d"] [w2a, w2b])).Nodup
    ∧ dstFileCount (successTargets (copy_phase ["d"] [w2a, w2b]))
        = [w2a, w2b].length - (copyWarns (copy_phase ["d"] [w2a, w2b])).length :=
  ⟨by decide, c5_dst_file_count ["d"] [w2a, w2b] (by decide)⟩

/-- Counterexample to C5 as stated: the run `inpC5` collects two files
(`/s/a/f.txt` and `/s/b/f.txt`, DST outside SRC) and logs zero copy
warnings, yet only one file is present under DST, because both copies
write the same target `d/txt/f.txt` (silent overwrite, last one wins). -/
theorem c5_counterexample :
    (main_run inpC5).walk.files.length = 2
    ∧ copyWarns (main_run inpC5).attempts = []
    ∧ dstFileCount (successTargets (main_run inpC5).attempts) = 1
    ∧ dstFileCount (successTargets (main_run inpC5).attempts)
        ≠ (main_run inpC5).walk.files.length
            - (copyWarns (main_run inpC5).attempts).length := by
  decide

/-- C6: `is_inside(dst, src)` returns `True` exactly when `dst` equals
`src` or lies inside `src`, and it returns `False` exactly when the
embedded `relative_to` fails (the raised `ValueError` case), i.e. the
exception is converted to "not contained" rather than propagated. -/
theorem c6_is_inside_correct (child parent : List String) :
    (is_inside child parent = true
        ↔ (child = parent ∨ (underPath parent child ∧ child ≠ parent)))
    ∧ (is_inside child parent = false ↔ relative_to child parent = none) := by
  have hiff : is_inside child parent = true ↔ underPath parent child := by
    rw [underPath_iff_isPrefixOf, is_inside, relative_to]
    by_cases hp : parent.isPrefixOf child = true <;> simp [hp]
  constructor
  · rw [hiff]
    constructor
    · intro hu
      by_cases he : child = parent
      · exact Or.inl he
      · exact Or.inr ⟨hu, he⟩
    · rintro (he | ⟨hu, _⟩)
      · rw [he]
        exact underPath_refl parent
      · exact hu
  · rw [is_inside, relative_to]
    by_cases hp : parent.isPrefixOf child = true <;> simp [hp]

/-- C7: a validated run that collects zero files makes no copy attempt,
emits no progress, warning or info output, still creates DST, and
short-circuits directly to rendering the destination tree. -/
theorem c7_zero_total_short_circuit (inp : RunInput)
    (h1 : inp.srcExists = true) (h2 : inp.srcIsDir = true) (h3 : inp.mkdirOk = true)
    (hz : (runWalk inp).files = []) :
    (main_run inp).dstCreated = true
    ∧ (main_run inp).attempts = []
    ∧ (main_run inp).output = (renderDstLines inp.dst []).map .treeLine
    ∧ ∀ e ∈ (main_run inp).output,
        (∀ i t, e ≠ .progress i t) ∧ (∀ m, e ≠ .warnLine m) ∧ (∀ m, e ≠ .info m) := by
  rw [main_run_zero inp h1 h2 h3 hz]
  refine ⟨rfl, rfl, rfl, ?_⟩
  intro e he
  obtain ⟨ln, _, rfl⟩ := List.mem_map.mp he
  exact ⟨by simp, by simp, by simp⟩

/-- Witness for C7: the run `inpC7` (SRC holds only an empty
subdirectory) creates DST and renders it without copying. -/
theorem c7_witness :
    (main_run inpC7).dstCreated = true
    ∧ (main_run inpC7).attempts = []
    ∧ (main_run inpC7).output = (renderDstLines inpC7.dst []).map .treeLine
    ∧ ∀ e ∈ (main_run inpC7).output,
        (∀ i t, e ≠ .progress i t) ∧ (∀ m, e ≠ .warnLine m) ∧ (∀ m, e ≠ .info m) :=
  c7_zero_total_short_circuit inpC7 (by decide) (by decide) (by decide) (by decide)

/-- C8: for every rendered directory the children are listed as a
permutation of the directory's entries sorted ascending by the pair
(is-file flag, name) — every directory precedes every file, names
alphabetical within each kind — the connector is `├── ` for every child
but the last and `└── ` for the last, and the child indentation extends
the parent indentation by four spaces (for every non-root prefix). -/
theorem c8_children_sorted_and_connected (path : List String) (nm : String)
    (cs : List RTree) (indent pre : String) (hpre : pre ≠ "") :
    (sortedChildren cs).Perm cs
    ∧ List.Pairwise (fun a b => (a.is_file = false ∧ b.is_file = true)
        ∨ (a.is_file = b.is_file ∧ a.name ≤ b.name)) (sortedChildren cs)
    ∧ (display_tree path (.dir nm true cs) indent pre).1
        = ⟨indent, pre, nm⟩
            :: (display_children path (indent ++ "    ") (sortedChildren cs)).1
    ∧ ∀ (l : List RTree) (e : RTree) (sub : String),
        (display_children path sub (l ++ [e])).1
          = (l.flatMap fun x => (display_tree (path ++ [x.name]) x sub ("├── ")).1)
            ++ (display_tree (path ++ [e.name]) e sub ("└── ")).1 := by
  refine ⟨List.perm_insertionSort sortKey cs, ?_, ?_, ?_⟩
  · exact List.Pairwise.imp (fun h => sortKey_semantic h)
      (List.sorted_insertionSort sortKey cs)
  · rw [display_tree]
    simp [hpre, sortedChildren]
  · intro l e sub
    rw [display_children_concat]

/-- Witness for C8: the concrete children list `rt8` is rendered with the
directory `sub` before the file `b.txt` and the connectors in place. -/
theorem c8_witness :
    (sortedChildren rt8).Perm rt8
    ∧ List.Pairwise (fun a b => (a.is_file = false ∧ b.is_file = true)
        ∨ (a.is_file = b.is_file ∧ a.name ≤ b.name)) (sortedChildren rt8)
    ∧ (display_tree ["d"] (.dir ("d") true rt8) ("") ("├── ")).1
        = ⟨"", "├── ", "d"⟩
            :: (display_children ["d"] ("" ++ "    ") (sortedChildren rt8)).1
    ∧ ∀ (l : List RTree) (e : RTree) (sub : String),
        (display_children ["d"] sub (l ++ [e])).1
          = (l.flatMap fun x => (display_tree (["d"] ++ [x.name]) x sub ("├── ")).1)
            ++ (display_tree (["d"] ++ [e.name]) e sub ("└── ")).1 :=
  c8_children_sorted_and_connected ["d"] ("d") rt8 ("") ("├── ") (by decide)

/-- C9: the traversal's skip test compares resolved path identity, not
lexical path text: for every tree, no directory the walker recurses into
and no file it collects has resolved path equal to the skip directory;
concretely, the symbolic link at lexical `/s/link` resolving to the skip
directory `/s/d` in `demoC9` is neither descended into nor collected. -/
theorem c9_skip_by_resolved_path (path s : List String) (n : Node) :
    ((∀ v ∈ (collect_files_recursive path (some s) n).visited, v.2 ≠ s)
    ∧ (∀ f ∈ (collect_files_recursive path (some s) n).files, f.resolved ≠ s))
    ∧ collect_files_recursive ["s"] (some ["s", "d"]) demoC9
        = ⟨[⟨["s", "keep"], ["s", "keep"], .ok⟩], [], []⟩ :=
  ⟨collect_skip_resolved path s n, by decide⟩

/-- Witness for C9: in `demoC9` the one collected file has resolved path
`/s/keep`, different from the skip directory `/s/d`. -/
theorem c9_witness :
    (⟨["s", "keep"], ["s", "keep"], CopyOutcome.ok⟩ : FileEntry).resolved ≠ ["s", "d"] :=
  (c9_skip_by_resolved_path ["s"] ["s", "d"] demoC9).1.2
    ⟨["s", "keep"], ["s", "keep"], CopyOutcome.ok⟩ (by decide)

/-- C10: when SRC does not exist or is not a directory, the run prints
one fatal line and stops: DST is not created, no traversal happens and no
copy is attempted — the filesystem is untouched. -/
theorem c10_fatal_before_side_effects (inp : RunInput)
    (h : ¬(inp.srcExists = true ∧ inp.srcIsDir = true)) :
    (main_run inp).output
        = [.fatal ("[FATAL] SRC '" ++ pathStr inp.src ++ "' не існує.")]
    ∧ (main_run inp).dstCreated = false
    ∧ (main_run inp).walk = WalkOut.empty
    ∧ (main_run inp).attempts = [] := by
  rw [main_run_fatal_src inp h]
  exact ⟨rfl, rfl, rfl, rfl⟩

/-- Witness for C10: the run `inpC10` (missing SRC) only prints the fatal
line. -/
theorem c10_witness :
    (main_run inpC10).output
        = [.fatal ("[FATAL] SRC '" ++ pathStr inpC10.src ++ "' не існує.")]
    ∧ (main_run inpC10).dstCreated = false
    ∧ (main_run inpC10).walk = WalkOut.empty
    ∧ (main_run inpC10).attempts = [] :=
  c10_fatal_before_side_effects inpC10 (by decide)
